import Mathlib

/-!
Verification development for the pycyqle query compiler and model assembler
(`pycyqle/factory.py`, `pycyqle/utils.py`).  The definitions below are a
shallow embedding of the source: dictionaries become insertion-ordered
association lists, Python truthiness is made explicit, and the two shapes an
operation can return (list vs. dict, list vs. bare model) are distinguished
by dedicated inductive types so that the source's dynamic typing is captured
faithfully.
-/

namespace Pycyqle

/-- Embeds `Component` (factory.py 547-562): one scalar column-to-attribute
mapping with its output name, source column, model setter name and type tag. -/
structure Component where
  name : String
  column : String
  carrier : String
  ctype : String
deriving DecidableEq

/-- Embeds `Component.format_column` (factory.py 560-562):
`'{prefix}.{column} AS {name}'`. -/
def Component.format_column (c : Component) (pfx : String) : String :=
  pfx ++ "." ++ c.column ++ " AS " ++ c.name

/-- One piece of a Join `on` template.  In the source the template is a Python
format string applied to a one-entry map `{reference + '.': replace + '.'}`;
a `ref` piece is a placeholder resolved by key in that map.  (A key absent
from the map raises KeyError in the source; that path is not exercised, and
we keep the key text for totality.) -/
inductive OnPiece where
  | lit (s : String)
  | ref (key : String)
deriving DecidableEq

/-- Embeds `Join` (factory.py 621-671): the table being joined, its declared
alias, the `on` template, and the raw `shoehorn` override. -/
structure JoinSpec where
  table : String
  aliasName : Option String
  onT : List OnPiece
  shoehorn : Option String
deriving DecidableEq

/-- Embeds `Join.reference` (factory.py 641-642): alias if declared, else table. -/
def JoinSpec.reference (j : JoinSpec) : String := j.aliasName.getD j.table

/-- Applies the one-entry replacement map `{key: val}` to an `on` template,
as `str(self.on()).format(_map)` does in the source. -/
def formatOn (pieces : List OnPiece) (key val : String) : String :=
  String.join (pieces.map (fun p => match p with
    | .lit s => s
    | .ref k => if k = key then val else k))

/-- Embeds `Join.compile` (factory.py 653-671).  With a counter above 1 for this
join's reference the replacement name gets an ordinal appended; note that the
source's local variable `alias` computed in that branch is never used in the
output below, exactly as in the source: the emitted alias slot always comes
from the declared alias. -/
def JoinSpec.compile (j : JoinSpec) (counter_map : List (String × Nat)) : String :=
  match j.shoehorn with
  | some s => s
  | none =>
    let reference := j.reference
    let replace :=
      match counter_map.lookup reference with
      | some c => if 1 < c then reference ++ toString c else reference
      | none => reference
    "JOIN " ++ j.table ++
      (match j.aliasName with | some a => " " ++ a | none => "") ++
      " ON " ++ formatOn j.onT (reference ++ ".") (replace ++ ".")

/-- The per-factory metadata of one `Factory` (factory.py 43-64): table,
declared alias, primary key, and the component map (insertion-ordered). -/
structure QFactoryData where
  table : String
  aliasName : Option String
  primary_key : Option String
  components : List (String × Component)
deriving DecidableEq

/-- A factory together with its chain of parent links, root-most last.  In
the source each factory's `_parent` holds the calling parent factory and the
inventory whose join attaches this factory; since every factory has at most
one parent the whole ancestry is the linear list kept here (each entry is the
parent's data paired with the join of the link into it). -/
structure QFactory where
  data : QFactoryData
  ancestors : List (QFactoryData × JoinSpec)
deriving DecidableEq

/-- Embeds `Factory.parent` (factory.py 130-139) as a view on the chain. -/
def QFactory.parentOf : QFactory → Option (QFactory × JoinSpec)
  | ⟨_, []⟩ => none
  | ⟨_, (pd, j) :: rest⟩ => some (⟨pd, rest⟩, j)

/-- Embeds `Factory.prefix` (factory.py 78-80): alias if declared else table. -/
def pfx (d : QFactoryData) : String := d.aliasName.getD d.table

/-- Embeds `Factory.component` (factory.py 103-105).  The source raises KeyError for
an unregistered name; queries in this development only use registered names,
so the lookup is totalised with a dummy component. -/
def componentOf (d : QFactoryData) (n : String) : Component :=
  (d.components.lookup n).getD ⟨n, n, n, "string"⟩

/-- Embeds `Factory._column_query` (factory.py 373-383).  Without a primary key the
source formats the alias unconditionally (`AS None` when absent, via Python's
str(None)); with one, the ` AS alias` suffix appears only when an alias was
passed. -/
def column_query (d : QFactoryData) (a : Option String) : String :=
  match d.primary_key with
  | none =>
    "ROWIDTOCHAR(" ++ pfx d ++ ".ROWID) AS " ++ (match a with | some s => s | none => "None")
  | some pk =>
    pfx d ++ "." ++ pk ++ (match a with | some s => " AS " ++ s | none => "")

/-- Python truthiness of the `components` argument of `Factory.query`: `None`
is falsy, and so is an empty list. -/
def compsTruthy : Option (List String) → Bool
  | some (_ :: _) => true
  | _ => false

/-- Embeds `Factory._compile_select` (factory.py 320-335).  `par` is the parent
factory's data when a parent link exists.  `comps = none` is the id-only mode
used for correlated subqueries: a DISTINCT projection of the identifier with
no alias and nothing else. -/
def compile_select (d : QFactoryData) (par : Option QFactoryData)
    (comps : Option (List String)) : String :=
  let sel0 := match comps with
    | some _ => [column_query d (some "\"__id__\"")]
    | none => ["DISTINCT " ++ column_query d none]
  let sel1 := match par, compsTruthy comps with
    | some pd, true => sel0 ++ [column_query pd (some "\"__pid__\"")]
    | _, _ => sel0
  let sel2 := if compsTruthy comps then
      sel1 ++ ((comps.getD []).map (fun n => (componentOf d n).format_column (pfx d)))
    else sel1
  String.intercalate "\n,    " sel2

/-- Embeds `Factory._compile_table` (factory.py 337-342). -/
def compile_table (d : QFactoryData) : String :=
  d.table ++ (match d.aliasName with | some a => " " ++ a | none => "")

/-- Python ids argument of `Factory.build`: `None`, a scalar, or a list. -/
inductive Ids where
  | pynone
  | scalar (v : Int)
  | plist (vs : List Int)
deriving DecidableEq

/-- Python truthiness of the ids argument (`not ids` in the source):
`None`, `0` and `[]` are falsy. -/
def Ids.falsy : Ids → Bool
  | .pynone => true
  | .scalar v => v == 0
  | .plist vs => vs.isEmpty

/-- The value `Factory.binds` returns: the source returns the empty *list*
for `None` input and an insertion-ordered dict otherwise, so both container
shapes are represented. -/
inductive BindsV where
  | pylist (xs : List Int)
  | pydict (entries : List (String × Int))
deriving DecidableEq

/-- Python truthiness of a binds value (`not binds`). -/
def BindsV.falsy : BindsV → Bool
  | .pylist xs => xs.isEmpty
  | .pydict m => m.isEmpty

/-- Embeds `len(binds)`. -/
def BindsV.len : BindsV → Nat
  | .pylist xs => xs.length
  | .pydict m => m.length

/-- Embeds `Factory.bind_reducer` (factory.py 391-395): inserts the next id under
the synthetic key `id<len>`. -/
def bind_reducer (acc : List (String × Int)) (item : Int) : List (String × Int) :=
  acc ++ [("id" ++ toString acc.length, item)]

/-- Embeds `Factory.binds` (factory.py 397-405): `None` yields the empty list; a
scalar is wrapped into a one-element list; a list is folded through
`bind_reducer` starting from the empty dict. -/
def Factory.binds : Ids → BindsV
  | .pynone => .pylist []
  | .scalar v => .pydict ([v].foldl bind_reducer [])
  | .plist vs => .pydict (vs.foldl bind_reducer [])

/-- The expected shape of the bind map: keys `id<n>` counting up from `n`,
values in input order. -/
def idxFrom : Nat → List Int → List (String × Int)
  | _, [] => []
  | n, v :: vs => ("id" ++ toString n, v) :: idxFrom (n + 1) vs

/-- Indentation `'    ' * depth` used by `Factory.query`. -/
def tabs4 (depth : Nat) : String := String.join (List.replicate depth "    ")

/-- Indentation `'   ' * depth` (three spaces) used by
`Factory._compile_where` before the closing parenthesis. -/
def tabs3 (depth : Nat) : String := String.join (List.replicate depth "   ")

/-- The root-factory WHERE clause of `Factory._compile_where`
(factory.py 355-363): membership of the identifier in the pyformat
placeholders `%(id0)s, %(id1)s, ...`, one per bind parameter. -/
def rootWhere (d : QFactoryData) (binds : BindsV) : String :=
  pfx d ++ "." ++ (d.primary_key.getD "ROWID") ++ " IN (" ++
    String.intercalate ","
      ((List.range binds.len).map (fun i => "%(id" ++ toString i ++ ")s")) ++ ")"

/-- Embeds `Factory.query` (factory.py 304-318) over a factory's data and ancestor
chain.  The WHERE logic of `_compile_where` (factory.py 351-371) is inlined
in each case: empty binds give `1=1`; a root factory filters directly with
`rootWhere`; a non-root factory emits the correlated subquery over its
parent's id-only query at depth + 1 (see `compile_where` below for the
standalone form and `query_where_eq` tying the two together). -/
def query : QFactoryData → List (QFactoryData × JoinSpec) → Option (List String) →
    BindsV → Nat → String
  | d, [], comps, binds, depth =>
    let whereC := if binds.falsy then "1=1" else rootWhere d binds
    let lines := ["SELECT " ++ compile_select d none comps,
                  "FROM " ++ compile_table d,
                  "WHERE " ++ whereC]
    tabs4 depth ++ String.intercalate ("\n" ++ tabs4 depth) lines
  | d, (pd, j) :: rest, comps, binds, depth =>
    let whereC := if binds.falsy then "1=1" else
      pd.table ++ "." ++ (pd.primary_key.getD "ROWID") ++ " IN (\n" ++
        query pd rest none binds (depth + 1) ++ "\n" ++ tabs3 depth ++ ")"
    let lines := ["SELECT " ++ compile_select d (some pd) comps,
                  "FROM " ++ compile_table d,
                  JoinSpec.compile j [],
                  "WHERE " ++ whereC]
    tabs4 depth ++ String.intercalate ("\n" ++ tabs4 depth) lines

/-- Embeds `Factory._compile_where` (factory.py 351-371) standalone. -/
def compile_where (d : QFactoryData) (anc : List (QFactoryData × JoinSpec))
    (binds : BindsV) (depth : Nat) : String :=
  if binds.falsy then "1=1"
  else match anc with
    | [] => rootWhere d binds
    | (pd, _) :: rest =>
      pd.table ++ "." ++ (pd.primary_key.getD "ROWID") ++ " IN (\n" ++
        query pd rest none binds (depth + 1) ++ "\n" ++ tabs3 depth ++ ")"

/-- Embeds `Factory._compile_join` (factory.py 344-349): delegates to the parent
link's join compilation, passing no counter map (so `Join.compile` runs with
its empty default). -/
def compile_join (anc : List (QFactoryData × JoinSpec)) : String :=
  match anc with
  | (_, j) :: _ => j.compile []
  | [] => ""

/-- The query assembled by `Factory.query` always carries
`WHERE <compile_where ...>` as its last line. -/
theorem query_where_eq (d : QFactoryData) (anc : List (QFactoryData × JoinSpec))
    (comps : Option (List String)) (binds : BindsV) (depth : Nat) :
    query d anc comps binds depth =
      tabs4 depth ++ String.intercalate ("\n" ++ tabs4 depth)
        (["SELECT " ++ compile_select d (anc.head?.map Prod.fst) comps,
          "FROM " ++ compile_table d] ++
         (match anc with | [] => [] | _ => [compile_join anc]) ++
         ["WHERE " ++ compile_where d anc binds depth]) := by
  cases anc with
  | nil => cases hb : binds.falsy <;> simp [query, compile_where, hb]
  | cons hd tl =>
    obtain ⟨pd, j⟩ := hd
    cases hb : binds.falsy <;> simp [query, compile_where, compile_join, hb]

/-- Collapses every run of whitespace characters to a single space. -/
def squeezeWs : List Char → List Char
  | [] => []
  | [c] => [if c.isWhitespace then ' ' else c]
  | c1 :: c2 :: rest =>
    if c1.isWhitespace ∧ c2.isWhitespace then squeezeWs (c2 :: rest)
    else (if c1.isWhitespace then ' ' else c1) :: squeezeWs (c2 :: rest)

/-- Drops a space that sits directly before or after a comma (the input is
already squeezed, so at most one space can sit on each side). -/
def dropCommaSpace : List Char → List Char
  | [] => []
  | [c] => [c]
  | c1 :: c2 :: rest =>
    if c1 = ' ' ∧ c2 = ',' then dropCommaSpace (c2 :: rest)
    else if c1 = ',' ∧ c2 = ' ' then c1 :: dropCommaSpace rest
    else c1 :: dropCommaSpace (c2 :: rest)

/-- Whitespace normalization used to compare generated SQL: collapse all
whitespace runs to single spaces, trim the ends, then erase spaces around
commas (the same canonical form as the source's test helper
`_format_query`). -/
def normalizeWS (s : String) : String :=
  String.mk (dropCommaSpace
    (((squeezeWs s.data).dropWhile (fun c => c.isWhitespace)).reverse.dropWhile
      (fun c => c.isWhitespace)).reverse)

/-- The bicycle factory of the spec's query-shape properties: table
`bicycle`, primary key `id`, no alias, components `tire`, `seat`, `pedal`
each with column equal to its name. -/
def bicycleD : QFactoryData :=
  { table := "bicycle", aliasName := none, primary_key := some "id",
    components :=
      [("tire", ⟨"tire", "tire", "tire", "string"⟩),
       ("seat", ⟨"seat", "seat", "seat", "string"⟩),
       ("pedal", ⟨"pedal", "pedal", "pedal", "string"⟩)] }

/-- The bind mapping `{id0: 42}`. -/
def bindsId42 : BindsV := .pydict [("id0", 42)]

/-! ### Model reference and the result selection of `Factory.build`

`Factory.build` (factory.py 205-228) runs `_build` and then selects the
result from the per-build model map.  The map is keyed by `model_key()`
(factory.py 196-203): the class *name* for a class reference and the string
itself for a deferred string reference.  Line 212, however, indexes the map
with `self.model()` — the raw reference.  A Python dict lookup with a class
object never hits a string key, so the two key shapes are kept apart here. -/

/-- The `model` set on a factory: a constructible class or a deferred
dotted-string reference. -/
inductive ModelRef where
  | cls (name : String)
  | strRef (s : String)
deriving DecidableEq

/-- Embeds `Factory.model_key` (factory.py 196-203). -/
def model_key : ModelRef → String
  | .cls n => n
  | .strRef s => s

/-- A Python value used as a key of the model map: either a string (what
`_build` inserts, always `model_key()`) or a class object (what line 212
looks up for a class-valued `model`).  A class object is never equal to a
string, which the two constructors capture. -/
inductive PyKeyV where
  | str (s : String)
  | clsObj (name : String)
deriving DecidableEq

/-- The raw model reference as a dict key, as used by line 212's
`self._model_map[self.model()]`. -/
def refAsKey : ModelRef → PyKeyV
  | .cls n => .clsObj n
  | .strRef s => .str s

/-- The per-build model map: `model_key → (internal id → model)`, both levels
insertion-ordered as Python dicts are. -/
def ModelMap (M : Type) := List (PyKeyV × List (Int × M))

/-- What `Factory.build` hands back: the source returns either a list of
models or (on the one reachable unwrap path) a bare model; the two shapes
are kept distinct. -/
inductive BuildOut (M : Type) where
  | many (ms : List M)
  | one (m : M)
deriving DecidableEq

/-- The result selection of `Factory.build` (factory.py 211-228), with the
model map produced by `_build` as input.

* falsy ids (`None`, `0`, `[]`): line 212 takes *all* values of
  `model_map[self.model()]` — the raw reference as key, KeyError for a class
  model.  `ids` is not reassigned, so line 222's
  `ids is None or isinstance(ids, list)` returns the values for `None`/`[]`,
  while a falsy scalar falls through to the single-build check whose success
  path subscripts a `dict_values` view (TypeError).
* truthy ids: line 214 reassigns a scalar to a one-element list before
  building the ordered subset, so line 222 always sees a list and returns the
  subset as a list — the scalar unwrap below it is unreachable here. -/
def buildSelect {M : Type} (mr : ModelRef) (ids : Ids) (mm : ModelMap M) :
    Except String (BuildOut M) :=
  if ids.falsy then
    match List.lookup (refAsKey mr) mm with
    | none => .error "KeyError"
    | some sub =>
      let models := sub.map Prod.snd
      match ids with
      | .pynone => .ok (.many models)
      | .plist _ => .ok (.many models)
      | .scalar _ =>
        if models.length ≠ 1 then .error "single build failed"
        else .error "TypeError: dict_values object is not subscriptable"
  else
    let idList := match ids with
      | .plist vs => vs
      | .scalar v => [v]
      | .pynone => []
    match List.lookup (PyKeyV.str (model_key mr)) mm with
    | none => .error "KeyError"
    | some sub => .ok (.many (idList.filterMap (fun i => List.lookup i sub)))

/-! ### Processors (utils.py, factory.py 152-180) -/

/-- A processor callback: a string naming a zero-argument method on the
model, or a unary callable (identified here by a tag; only the invocation
trace matters). -/
inductive Callback where
  | methodName (name : String)
  | unaryFn (tag : String)
deriving DecidableEq

/-- Python `callable(...)`: a function is callable, a string is not. -/
def pyCallable : Callback → Bool
  | .methodName _ => false
  | .unaryFn _ => true

/-- Embeds `utils.Processor`: the callback and the queue of attached
models. -/
structure Processor (M : Type) where
  closure : Callback
  models : List M

/-- Embeds `Processor.attach` (utils.py): appends the model to the queue. -/
def Processor.attach {M : Type} (p : Processor M) (m : M) : Processor M :=
  { p with models := p.models ++ [m] }

/-- One observable invocation performed by `Processor.run`. -/
inductive CallEvent (M : Type) where
  | methodCall (m : M) (name : String)
  | closureCall (m : M) (tag : String)
deriving DecidableEq

/-- Embeds `Processor.run` (utils.py): for every queued model in queue order, call
the named zero-argument method when the closure is a string, and call the
closure on the model when it is callable.  Returned as the invocation
trace. -/
def Processor.run {M : Type} (p : Processor M) : List (CallEvent M) :=
  p.models.map (fun m => match p.closure with
    | .methodName s => .methodCall m s
    | .unaryFn t => .closureCall m t)

/-- Embeds `Factory._process` (factory.py 176-180): rejects a non-callable closure,
otherwise registers a fresh processor for it. -/
def factoryProcess {M : Type} (ps : List (Processor M)) (closure : Callback) :
    Except String (List (Processor M)) :=
  if pyCallable closure then .ok (ps ++ [⟨closure, []⟩])
  else .error "processor must be callable"

/-! ### Order shorthands and `Factory.standardize_order` (factory.py 407-425)

An order is either a positional list of component names or a dict whose
integer keys carry component names, whose reserved `__components__` key
carries a list of names copied through verbatim, and whose other string keys
carry recursively normalized sub-orders.  Dicts are insertion-ordered lists
of entries. -/

mutual
inductive POrder : Type where
  | plist : List String → POrder
  | pdict : List PEntry → POrder

inductive PEntry : Type where
  | comp : Nat → String → PEntry
  | compsKey : List String → PEntry
  | rel : String → POrder → PEntry
end

/-- Insertion-ordered dict update on the relationship entries: replacing an
existing key keeps its position, a new key is appended. -/
def setAssoc : List (String × POrder) → String → POrder → List (String × POrder)
  | [], k, v => [(k, v)]
  | (k', v') :: rest, k, v =>
    if k' = k then (k, v) :: rest else (k', v') :: setAssoc rest k v

/-- Reassembles the normalizer's accumulator into the output dict: the
reserved key first (it is initialized first and updates keep its position),
then the relationship entries in insertion order. -/
def mkStd (p : List String × List (String × POrder)) : POrder :=
  .pdict (PEntry.compsKey p.1 :: p.2.map (fun q => PEntry.rel q.1 q.2))

mutual
/-- Embeds `Factory.standardize_order` (factory.py 407-425).  A list input is first
converted to the dict `{0: names[0], 1: names[1], ...}` whose loop simply
accumulates all names in order (see `std_plist_via_loop` below), giving
`{'__components__': names}` directly.  A dict input is folded through the
source's loop over its items. -/
def standardize_order : POrder → POrder
  | .plist names => .pdict [PEntry.compsKey names]
  | .pdict es => mkStd (stdEntries es [] [])

/-- The loop body of `standardize_order`: an integer key appends its name to
the accumulated `__components__` list, the reserved key overwrites that list
with its value, and any other string key stores the recursively normalized
sub-order under itself. -/
def stdEntries : List PEntry → List String → List (String × POrder) →
    List String × List (String × POrder)
  | [], comps, rels => (comps, rels)
  | .comp _ n :: rest, comps, rels => stdEntries rest (comps ++ [n]) rels
  | .compsKey ns :: rest, _, rels => stdEntries rest ns rels
  | .rel k sub :: rest, comps, rels =>
    stdEntries rest comps (setAssoc rels k (standardize_order sub))
end

/-- The int-keyed dict `{i: names[0], i+1: names[1], ...}` that the list
branch of the source builds before looping. -/
def intEntries : Nat → List String → List PEntry
  | _, [] => []
  | i, n :: ns => PEntry.comp i n :: intEntries (i + 1) ns

/-- Sanity check of the direct list-branch translation: running the source's
loop over the converted int-keyed dict produces exactly
`{'__components__': names}`. -/
theorem std_plist_via_loop (names : List String) :
    mkStd (stdEntries (intEntries 0 names) [] []) = POrder.pdict [PEntry.compsKey names] := by
  have h : ∀ ns : List String, ∀ i : Nat, ∀ comps : List String,
      ∀ rels : List (String × POrder),
      stdEntries (intEntries i ns) comps rels = (comps ++ ns, rels) := by
    intro ns
    induction ns with
    | nil => intro i comps rels; simp [intEntries, stdEntries]
    | cons n ns ih =>
      intro i comps rels
      simp [intEntries, stdEntries, ih (i + 1) (comps ++ [n]) rels]
  simp [h, mkStd]

/-! Size measure for strong induction over (mutually) nested orders. -/

mutual
def POrder.osize : POrder → Nat
  | .plist _ => 1
  | .pdict es => 1 + PEntry.lsize es

def PEntry.esize : PEntry → Nat
  | .comp _ _ => 1
  | .compsKey _ => 1
  | .rel _ sub => 1 + sub.osize

def PEntry.lsize : List PEntry → Nat
  | [] => 0
  | e :: rest => 1 + e.esize + PEntry.lsize rest
end

theorem osize_pos (o : POrder) : 1 ≤ o.osize := by
  cases o <;> simp [POrder.osize]

/-- The invariant the normalizer's relationship accumulator maintains:
pairwise distinct keys and every stored sub-order a fixed point of the
normalizer. -/
def GoodRels (R : List (String × POrder)) : Prop :=
  (R.map Prod.fst).Nodup ∧ ∀ p ∈ R, standardize_order p.2 = p.2

theorem setAssoc_mem : (R : List (String × POrder)) → (k : String) → (v : POrder) →
    (q : String × POrder) → q ∈ setAssoc R k v → q ∈ R ∨ q = (k, v)
  | [], k, v, q, h => by simpa [setAssoc] using h
  | (k', v') :: tl, k, v, q, h => by
    by_cases hk : k' = k
    · simp only [setAssoc, if_pos hk, List.mem_cons] at h
      rcases h with h | h
      · right; exact h
      · left; exact List.mem_cons_of_mem _ h
    · simp only [setAssoc, if_neg hk, List.mem_cons] at h
      rcases h with h | h
      · left; exact h ▸ List.mem_cons_self _ _
      · rcases setAssoc_mem tl k v q h with h' | h'
        · left; exact List.mem_cons_of_mem _ h'
        · right; exact h'

theorem setAssoc_keys (R : List (String × POrder)) (k : String) (v : POrder) :
    (setAssoc R k v).map Prod.fst =
      if k ∈ R.map Prod.fst then R.map Prod.fst else R.map Prod.fst ++ [k] := by
  induction R with
  | nil => simp [setAssoc]
  | cons hd tl ih =>
    rcases hd with ⟨k', v'⟩
    by_cases hk : k' = k
    · subst hk; simp [setAssoc]
    · simp only [setAssoc, if_neg hk, List.map_cons, ih]
      have hne : ¬ k = k' := fun h => hk h.symm
      by_cases hmem : k ∈ tl.map Prod.fst <;> simp [hmem, hne]

theorem setAssoc_nodup {R : List (String × POrder)} (k : String) (v : POrder)
    (h : (R.map Prod.fst).Nodup) : ((setAssoc R k v).map Prod.fst).Nodup := by
  rw [setAssoc_keys]
  by_cases hmem : k ∈ R.map Prod.fst
  · simpa [hmem] using h
  · simp only [hmem, if_false]
    rw [List.nodup_append]
    refine ⟨h, List.nodup_singleton _, ?_⟩
    intro x hx hxk
    simp only [List.mem_singleton] at hxk
    subst hxk
    exact hmem hx

theorem GoodRels_setAssoc {R : List (String × POrder)} {k : String} {v : POrder}
    (hR : GoodRels R) (hv : standardize_order v = v) : GoodRels (setAssoc R k v) := by
  refine ⟨setAssoc_nodup k v hR.1, ?_⟩
  intro p hp
  rcases setAssoc_mem R k v p hp with h | h
  · exact hR.2 p h
  · subst h; exact hv

theorem setAssoc_fresh {R : List (String × POrder)} {k : String} (v : POrder)
    (h : k ∉ R.map Prod.fst) : setAssoc R k v = R ++ [(k, v)] := by
  induction R with
  | nil => simp [setAssoc]
  | cons hd tl ih =>
    rcases hd with ⟨k', v'⟩
    simp only [List.map_cons, List.mem_cons] at h
    push_neg at h
    have hk : ¬ k' = k := fun he => h.1 he.symm
    simp [setAssoc, hk, ih h.2]

/-- Running the normalizer's loop over a dict that consists only of
relationship entries with fresh, pairwise distinct keys and fixed-point
values simply appends them to the accumulator unchanged. -/
theorem stdEntries_relmap : (R : List (String × POrder)) → (C : List String) →
    (A : List (String × POrder)) →
    (∀ p ∈ R, standardize_order p.2 = p.2) →
    ((A ++ R).map Prod.fst).Nodup →
    stdEntries (R.map (fun q => PEntry.rel q.1 q.2)) C A = (C, A ++ R)
  | [], C, A, _, _ => by simp [stdEntries]
  | (k, s) :: tl, C, A, hfix, hnd => by
    have hs : standardize_order s = s := hfix (k, s) (List.mem_cons_self _ _)
    have hknotA : k ∉ A.map Prod.fst := by
      intro hmem
      rw [List.map_append, List.nodup_append] at hnd
      exact hnd.2.2 hmem (by simp)
    have hre : A ++ (k, s) :: tl = (A ++ [(k, s)]) ++ tl := by simp
    rw [hre] at hnd
    simp only [List.map_cons, stdEntries, hs, setAssoc_fresh s hknotA]
    rw [stdEntries_relmap tl C (A ++ [(k, s)])
      (fun p hp => hfix p (List.mem_cons_of_mem _ hp)) hnd]
    simp

mutual
/-- Claim helper: the normalizer is idempotent, by strong induction on the
order's size. -/
theorem std_idem_aux : (n : Nat) → (o : POrder) → o.osize ≤ n →
    standardize_order (standardize_order o) = standardize_order o
  | 0, o, h => absurd (le_trans (osize_pos o) h) (by omega)
  | _ + 1, .plist _, _ => by
    simp [standardize_order, stdEntries, mkStd]
  | n + 1, .pdict es, h => by
    have hes : PEntry.lsize es ≤ n := by
      simp only [POrder.osize] at h; omega
    have hgood : GoodRels (stdEntries es [] []).2 :=
      stdEntries_good n es [] [] hes ⟨List.nodup_nil, by simp⟩
    rcases hsp : stdEntries es [] [] with ⟨C, R⟩
    rw [hsp] at hgood
    show standardize_order (standardize_order (POrder.pdict es)) =
      standardize_order (POrder.pdict es)
    simp only [standardize_order, hsp, mkStd, stdEntries]
    rw [stdEntries_relmap R C [] hgood.2 (by simpa using hgood.1)]
    simp
  termination_by n _ _ => (n, 0)

/-- The loop preserves the accumulator invariant, provided idempotence holds
for all orders up to size `n` and the remaining entries fit in `n`. -/
theorem stdEntries_good : (n : Nat) → (es : List PEntry) → (C : List String) →
    (A : List (String × POrder)) → PEntry.lsize es ≤ n → GoodRels A →
    GoodRels (stdEntries es C A).2
  | _, [], _, _, _, hA => by simpa [stdEntries] using hA
  | n, .comp i nm :: rest, C, A, h, hA => by
    have hr : PEntry.lsize rest ≤ n := by
      simp only [PEntry.lsize, PEntry.esize] at h ⊢; omega
    simpa [stdEntries] using stdEntries_good n rest (C ++ [nm]) A hr hA
  | n, .compsKey ns :: rest, C, A, h, hA => by
    have hr : PEntry.lsize rest ≤ n := by
      simp only [PEntry.lsize, PEntry.esize] at h ⊢; omega
    simpa [stdEntries] using stdEntries_good n rest ns A hr hA
  | n, .rel k sub :: rest, C, A, h, hA => by
    have hsub : sub.osize ≤ n := by
      simp only [PEntry.lsize, PEntry.esize] at h; omega
    have hrest : PEntry.lsize rest ≤ n := by
      simp only [PEntry.lsize, PEntry.esize] at h ⊢; omega
    have hfix : standardize_order (standardize_order sub) = standardize_order sub :=
      std_idem_aux n sub hsub
    simpa [stdEntries] using
      stdEntries_good n rest C (setAssoc A k (standardize_order sub)) hrest
        (GoodRels_setAssoc hA hfix)
  termination_by n es _ _ _ _ => (n, es.length + 1)
end

/-! ### The in-place order mutation of `Factory._build` (factory.py 230-302)

`build` stores the normalized order on the factory and passes that same
object to `_build`, which — when its level's query returned at least one
row — executes `del order['__components__']` in place and then recurses into
each remaining relationship entry's sub-order (the child *factory* is
deep-copied, the sub-order is not).  When the level's data is empty (or the
order itself is falsy) `_build` returns before the deletion, leaving that
whole subtree untouched.  `buildOrder` captures exactly this effect on the
stored order; `hasData` says, per path of relationship keys from the root,
whether the level's query returned rows.  (An order key without a matching
inventory item raises in the source, aborting the build; completed builds,
which the claim is about, have only inventory keys.  An int-keyed or
non-dict node cannot occur in a normalized order.) -/

mutual
def buildOrder (hasData : List String → Bool) (path : List String) : POrder → POrder
  | .plist ns => .plist ns
  | .pdict es =>
    if es.isEmpty then .pdict es
    else if hasData path then .pdict (buildEntries hasData path es)
    else .pdict es

/-- Embeds `del order['__components__']` followed by the recursion into the
remaining relationship entries. -/
def buildEntries (hasData : List String → Bool) (path : List String) :
    List PEntry → List PEntry
  | [] => []
  | .compsKey _ :: rest => buildEntries hasData path rest
  | .rel k sub :: rest =>
    .rel k (buildOrder hasData (path ++ [k]) sub) :: buildEntries hasData path rest
  | .comp i n :: rest => .comp i n :: buildEntries hasData path rest
end

mutual
/-- Whether the reserved `__components__` key is present anywhere in the
order tree. -/
def hasCompsKey : POrder → Bool
  | .plist _ => false
  | .pdict es => entriesHaveComps es

def entriesHaveComps : List PEntry → Bool
  | [] => false
  | .compsKey _ :: _ => true
  | .rel _ sub :: rest => hasCompsKey sub || entriesHaveComps rest
  | .comp _ _ :: rest => entriesHaveComps rest
end

/-- Mapping the build recursion over relationship entries only. -/
theorem buildEntries_relmap (T : List String → Bool) (path : List String)
    (R : List (String × POrder)) :
    buildEntries T path (R.map (fun q => PEntry.rel q.1 q.2)) =
      R.map (fun q => PEntry.rel q.1 (buildOrder T (path ++ [q.1]) q.2)) := by
  induction R with
  | nil => simp [buildEntries]
  | cons hd tl ih => rcases hd with ⟨k, s⟩; simp [buildEntries, ih]

theorem entriesHaveComps_relmap (l : List PEntry)
    (h : ∀ e ∈ l, ∃ k sub, e = PEntry.rel k sub ∧ hasCompsKey sub = false) :
    entriesHaveComps l = false := by
  induction l with
  | nil => simp [entriesHaveComps]
  | cons hd tl ih =>
    rcases h hd (List.mem_cons_self _ _) with ⟨k, sub, he, hsub⟩
    subst he
    simp only [entriesHaveComps, hsub, Bool.false_or]
    exact ih (fun e he' => h e (List.mem_cons_of_mem _ he'))

/-- Accumulator invariant for the no-`__components__` result: every stored
sub-order, once run through the build mutation with data present everywhere,
has lost the reserved key at every level. -/
def CleanRels (R : List (String × POrder)) : Prop :=
  ∀ p ∈ R, ∀ path, hasCompsKey (buildOrder (fun _ => true) path p.2) = false

theorem CleanRels_setAssoc {R : List (String × POrder)} {k : String} {v : POrder}
    (hR : CleanRels R) (hv : ∀ path, hasCompsKey (buildOrder (fun _ => true) path v) = false) :
    CleanRels (setAssoc R k v) := by
  intro p hp
  rcases setAssoc_mem R k v p hp with h | h
  · exact hR p h
  · subst h; exact hv

mutual
/-- When every level's query returns rows, a completed build deletes the
reserved key from every level of the normalized order. -/
theorem buildOrder_clean : (n : Nat) → (x : POrder) → x.osize ≤ n →
    (path : List String) →
    hasCompsKey (buildOrder (fun _ => true) path (standardize_order x)) = false
  | 0, x, h, _ => absurd (le_trans (osize_pos x) h) (by omega)
  | _ + 1, .plist _, _, path => by
    simp [standardize_order, buildOrder, buildEntries, hasCompsKey, entriesHaveComps]
  | n + 1, .pdict es, h, path => by
    have hes : PEntry.lsize es ≤ n := by
      simp only [POrder.osize] at h; omega
    have hclean : CleanRels (stdEntries es [] []).2 :=
      stdEntries_clean n es [] [] hes (by intro p hp; simp at hp)
    rcases hsp : stdEntries es [] [] with ⟨C, R⟩
    rw [hsp] at hclean
    simp only [standardize_order, hsp, mkStd, buildOrder, List.isEmpty_cons,
      if_false, if_true, buildEntries, buildEntries_relmap, hasCompsKey]
    exact entriesHaveComps_relmap _ (by
      intro e he
      simp only [List.mem_map] at he
      rcases he with ⟨q, hq, he⟩
      exact ⟨q.1, _, he.symm, hclean q hq _⟩)
  termination_by n _ _ _ => (n, 0)

/-- The normalizer's loop only ever stores sub-orders that the build
mutation cleans completely. -/
theorem stdEntries_clean : (n : Nat) → (es : List PEntry) → (C : List String) →
    (A : List (String × POrder)) → PEntry.lsize es ≤ n → CleanRels A →
    CleanRels (stdEntries es C A).2
  | _, [], _, _, _, hA => by simpa [stdEntries] using hA
  | n, .comp i nm :: rest, C, A, h, hA => by
    have hr : PEntry.lsize rest ≤ n := by
      simp only [PEntry.lsize, PEntry.esize] at h ⊢; omega
    simpa [stdEntries] using stdEntries_clean n rest (C ++ [nm]) A hr hA
  | n, .compsKey ns :: rest, C, A, h, hA => by
    have hr : PEntry.lsize rest ≤ n := by
      simp only [PEntry.lsize, PEntry.esize] at h ⊢; omega
    simpa [stdEntries] using stdEntries_clean n rest ns A hr hA
  | n, .rel k sub :: rest, C, A, h, hA => by
    have hsub : sub.osize ≤ n := by
      simp only [PEntry.lsize, PEntry.esize] at h; omega
    have hrest : PEntry.lsize rest ≤ n := by
      simp only [PEntry.lsize, PEntry.esize] at h ⊢; omega
    have hv : ∀ path, hasCompsKey (buildOrder (fun _ => true) path
        (standardize_order sub)) = false :=
      fun path => buildOrder_clean n sub hsub path
    simpa [stdEntries] using
      stdEntries_clean n rest C (setAssoc A k (standardize_order sub)) hrest
        (CleanRels_setAssoc hA hv)
  termination_by n es _ _ _ _ => (n, es.length + 1)
end

/-! ### Remaining concrete fixtures and helper lemmas -/

/-- The join a child factory under `bicycle` carries: structured spec with
table `bicycle`, no declared alias, and the `on` template referencing
`bicycle.` through the replacement map. -/
def bicycleJoin : JoinSpec :=
  { table := "bicycle", aliasName := none,
    onT := [.ref "bicycle.", .lit "id = wheel.bicycle_id"], shoehorn := none }

/-- A `wheel` child factory joined under `bicycle`. -/
def wheelD : QFactoryData :=
  { table := "wheel", aliasName := none, primary_key := some "id",
    components := [("size", ⟨"size", "size", "size", "string"⟩)] }

theorem foldl_bind_reducer (vs : List Int) : ∀ acc : List (String × Int),
    vs.foldl bind_reducer acc = acc ++ idxFrom acc.length vs := by
  induction vs with
  | nil => intro acc; simp [idxFrom]
  | cons v vs ih =>
    intro acc
    rw [List.foldl_cons, ih (bind_reducer acc v)]
    simp [bind_reducer, idxFrom, List.length_append, List.append_assoc]

/-- Id-only mode projects exactly the duplicate-eliminated identifier
expression with no alias, whatever the parent situation. -/
theorem compile_select_idonly (d : QFactoryData) (par : Option QFactoryData) :
    compile_select d par none = "DISTINCT " ++ column_query d none := by
  cases par <;> rfl

/-! ### Claim theorems -/

/-- C1.  The claim: building with a scalar id matching zero rows or two or
more models raises a cardinality error, and matching exactly one returns the
bare model.  The code does not do this: line 214 reassigns a truthy scalar
`ids` to a one-element list before line 222 tests `isinstance(ids, list)`,
so a truthy scalar build always returns a *list* ( `[]` on zero matches, a
one-element list on one match — first two conjuncts), and the cardinality
check below is reachable only for a falsy scalar such as `0`, where its
success path subscripts a `dict_values` view and raises TypeError (third
conjunct). -/
theorem C1_scalar_build_code_eval :
    buildSelect (ModelRef.strRef "models.Bicycle") (Ids.scalar 42)
      [(PyKeyV.str "models.Bicycle", [(42, "bike42")])] = .ok (.many ["bike42"])
  ∧ buildSelect (ModelRef.strRef "models.Bicycle") (Ids.scalar 99)
      [(PyKeyV.str "models.Bicycle", [(42, "bike42")])] = .ok (.many [])
  ∧ buildSelect (ModelRef.strRef "models.Bicycle") (Ids.scalar 0)
      [(PyKeyV.str "models.Bicycle", [(0, "bike0")])] =
      .error "TypeError: dict_values object is not subscriptable" :=
  ⟨rfl, rfl, rfl⟩

/-- C2 counterexample.  The claim's expected text uses the placeholder
`:id0`; the code emits the pyformat placeholder `%(id0)s`, so the two do not
agree even after whitespace normalization. -/
theorem C2_counterexample :
    normalizeWS (query bicycleD [] (some ["seat", "pedal"]) bindsId42 0) ≠
      normalizeWS "SELECT bicycle.id AS \"__id__\", bicycle.seat AS seat, bicycle.pedal AS pedal FROM bicycle WHERE bicycle.id IN (:id0)" := by
  decide

/-- C2 amended.  Same factory, order `[seat, pedal]`, binds `{id0: 42}`: the
compiled text, after whitespace normalization, equals the claim's shape with
the placeholder `%(id0)s` instead of `:id0` (first conjunct gives the exact
raw text). -/
theorem C2_filtered_query_shape :
    query bicycleD [] (some ["seat", "pedal"]) bindsId42 0 =
      "SELECT bicycle.id AS \"__id__\"\n,    bicycle.seat AS seat\n,    bicycle.pedal AS pedal\nFROM bicycle\nWHERE bicycle.id IN (%(id0)s)"
  ∧ normalizeWS (query bicycleD [] (some ["seat", "pedal"]) bindsId42 0) =
      normalizeWS "SELECT bicycle.id AS \"__id__\", bicycle.seat AS seat, bicycle.pedal AS pedal FROM bicycle WHERE bicycle.id IN (%(id0)s)" :=
  ⟨rfl, rfl⟩

/-- C3.  The claim: a table joined twice gets `table` and `table2` as aliases
with each `on` clause referencing its own alias.  The code never does this:
`Factory._compile_join` calls `Join.compile()` with no counter map (first
conjunct — the compiled text for *every* occurrence is therefore this same
string, with no ordinal anywhere), and even when a counter map reporting two
occurrences is supplied directly, only the `on` placeholder is rewritten
while the alias slot after the table name stays the declared alias (absent
here), so no `bicycle2` alias is ever introduced (second conjunct). -/
theorem C3_join_collision_eval :
    compile_join [(bicycleD, bicycleJoin)] = "JOIN bicycle ON bicycle.id = wheel.bicycle_id"
  ∧ JoinSpec.compile bicycleJoin [("bicycle", 2)] =
      "JOIN bicycle ON bicycle2.id = wheel.bicycle_id" :=
  ⟨rfl, rfl⟩

/-- C4.  The claim: `build(mgr, order, None)` returns all materialized
models for the root model key, whether the model reference is a class or a
string.  Line 212 indexes the model map with `self.model()` — the raw
reference — though `_build` keys it by `model_key()`: with a class model the
lookup raises KeyError (first conjunct); only the string-reference case
behaves as claimed (second conjunct). -/
theorem C4_build_none_ids_eval :
    buildSelect (ModelRef.cls "Bicycle") Ids.pynone
      [(PyKeyV.str "Bicycle", [(1, "b1"), (2, "b2")])] = .error "KeyError"
  ∧ buildSelect (ModelRef.strRef "models.Bicycle") Ids.pynone
      [(PyKeyV.str "models.Bicycle", [(1, "b1"), (2, "b2")])] = .ok (.many ["b1", "b2"]) :=
  ⟨rfl, rfl⟩

/-- C5 counterexample.  `binds(None)` returns the empty *list* (factory.py
399-400), which is not an empty mapping. -/
theorem C5_counterexample :
    Factory.binds Ids.pynone = BindsV.pylist []
  ∧ Factory.binds Ids.pynone ≠ BindsV.pydict [] :=
  ⟨rfl, by decide⟩

/-- C5 amended.  `binds([a,b,c]) = {id0: a, id1: b, id2: c}` with names in
stable index order matching input order for every list (first conjunct gives
the general law), `binds(v) = {id0: v}` for every scalar, but `binds(None)`
is the empty list `[]`, not the empty mapping. -/
theorem C5_binds_spec :
    (∀ vs : List Int, Factory.binds (Ids.plist vs) = BindsV.pydict (idxFrom 0 vs))
  ∧ (∀ a b c : Int, Factory.binds (Ids.plist [a, b, c]) =
      BindsV.pydict [("id0", a), ("id1", b), ("id2", c)])
  ∧ Factory.binds Ids.pynone = BindsV.pylist []
  ∧ (∀ v : Int, Factory.binds (Ids.scalar v) = BindsV.pydict [("id0", v)]) := by
  refine ⟨?_, ?_, rfl, ?_⟩
  · intro vs
    simp [Factory.binds, foldl_bind_reducer]
  · intro a b c
    have h : Factory.binds (Ids.plist [a, b, c]) = BindsV.pydict (idxFrom 0 [a, b, c]) := by
      show BindsV.pydict ([a, b, c].foldl bind_reducer []) = _
      rw [foldl_bind_reducer]
      simp
    rw [h]
    have k0 : "id" ++ toString (0 : Nat) = "id0" := rfl
    have k1 : "id" ++ toString (1 : Nat) = "id1" := rfl
    have k2 : "id" ++ toString (2 : Nat) = "id2" := rfl
    simp [idxFrom, k0, k1, k2]
  · intro v
    rfl

/-- C6.  `standardize_order` is idempotent: normalizing an already
normalized order shorthand returns it unchanged. -/
theorem C6_standardize_order_idempotent (o : POrder) :
    standardize_order (standardize_order o) = standardize_order o :=
  std_idem_aux o.osize o (le_refl _)

/-- C7.  For a non-root factory compiled with non-empty binds at depth `d`,
the WHERE clause is the correlated-subquery form
`parentTable.parentPrimaryKey IN ( <parent's query in id-only mode at depth
d+1> )` reusing the same bind mapping, and the id-only parent query projects
the DISTINCT identifier expression with no alias. -/
theorem C7_correlated_subquery (d pd : QFactoryData) (j : JoinSpec)
    (rest : List (QFactoryData × JoinSpec)) (binds : BindsV) (depth : Nat)
    (hb : binds.falsy = false) :
    compile_where d ((pd, j) :: rest) binds depth =
      pd.table ++ "." ++ pd.primary_key.getD "ROWID" ++ " IN (\n" ++
        query pd rest none binds (depth + 1) ++ "\n" ++ tabs3 depth ++ ")"
  ∧ query pd rest none binds (depth + 1) =
      tabs4 (depth + 1) ++ String.intercalate ("\n" ++ tabs4 (depth + 1))
        (["SELECT " ++ ("DISTINCT " ++ column_query pd none),
          "FROM " ++ compile_table pd] ++
         (match rest with | [] => [] | _ => [compile_join rest]) ++
         ["WHERE " ++ compile_where pd rest binds (depth + 1)]) := by
  constructor
  · simp [compile_where, hb]
  · rw [query_where_eq, compile_select_idonly]

/-- C7 witness: the `wheel` factory under `bicycle` with binds `{id0: 42}`
at depth 0. -/
theorem C7_correlated_subquery_witness :
    BindsV.falsy bindsId42 = false
  ∧ (compile_where wheelD [(bicycleD, bicycleJoin)] bindsId42 0 =
      bicycleD.table ++ "." ++ bicycleD.primary_key.getD "ROWID" ++ " IN (\n" ++
        query bicycleD [] none bindsId42 1 ++ "\n" ++ tabs3 0 ++ ")"
   ∧ query bicycleD [] none bindsId42 1 =
      tabs4 1 ++ String.intercalate ("\n" ++ tabs4 1)
        (["SELECT " ++ ("DISTINCT " ++ column_query bicycleD none),
          "FROM " ++ compile_table bicycleD] ++
         (match ([] : List (QFactoryData × JoinSpec)) with | [] => [] | _ => [compile_join []]) ++
         ["WHERE " ++ compile_where bicycleD [] bindsId42 1])) :=
  ⟨rfl, C7_correlated_subquery wheelD bicycleD bicycleJoin [] bindsId42 0 rfl⟩

/-- C8.  The claim: both callback forms — a unary callable and a string
naming a zero-argument method — can be registered through the factory's
`process`, with finalize invoking them on every queued model in queue order.
`Factory._process` rejects anything not `callable`, and a Python string is
not callable, so registering the string form fails (first conjunct) even
though `Processor.run` fully supports it (third conjunct); only the callable
form registers (second conjunct) and runs in queue order (fourth). -/
theorem C8_processor_registration_eval :
    factoryProcess ([] : List (Processor String)) (Callback.methodName "refresh") =
      .error "processor must be callable"
  ∧ factoryProcess ([] : List (Processor String)) (Callback.unaryFn "f") =
      .ok [⟨Callback.unaryFn "f", []⟩]
  ∧ Processor.run ⟨Callback.methodName "refresh", ["m1", "m2"]⟩ =
      [CallEvent.methodCall "m1" "refresh", CallEvent.methodCall "m2" "refresh"]
  ∧ Processor.run ⟨Callback.unaryFn "f", ["m1", "m2"]⟩ =
      [CallEvent.closureCall "m1" "f", CallEvent.closureCall "m2" "f"] :=
  ⟨rfl, rfl, rfl, rfl⟩

/-- C9 counterexample.  The claim: a falsy scalar id such as `0` is treated
exactly like `None` (empty binds, WHERE `1=1`, all models returned).  In the
code `binds(0) = {id0: 0}` is non-empty, the root WHERE is the filtered
membership test, and the result selection applies the single-build check
instead of returning all models (`None` does return them all, last
conjunct). -/
theorem C9_counterexample :
    Factory.binds (Ids.scalar 0) = BindsV.pydict [("id0", 0)]
  ∧ compile_where bicycleD [] (Factory.binds (Ids.scalar 0)) 0 = "bicycle.id IN (%(id0)s)"
  ∧ compile_where bicycleD [] (Factory.binds (Ids.scalar 0)) 0 ≠ "1=1"
  ∧ buildSelect (ModelRef.strRef "models.Bicycle") (Ids.scalar 0)
      [(PyKeyV.str "models.Bicycle", [(1, "b1"), (2, "b2")])] = .error "single build failed"
  ∧ buildSelect (ModelRef.strRef "models.Bicycle") Ids.pynone
      [(PyKeyV.str "models.Bicycle", [(1, "b1"), (2, "b2")])] = .ok (.many ["b1", "b2"]) :=
  ⟨rfl, rfl, by decide, rfl, rfl⟩

/-- C9 amended.  The empty list is treated exactly like `None`: the result
selection is identical on every model map (first conjunct), its bind mapping
is empty (the empty dict, where `binds(None)` is the empty list), and the
compiled WHERE is the unfiltered `1=1` for every factory.  A falsy scalar
`0`, however, yields the non-empty bind mapping `{id0: 0}` and a filtered
WHERE clause; its result selection takes the all-materialized branch but
then applies the single-build check rather than returning the models. -/
theorem C9_falsy_ids_spec :
    (∀ (M : Type) (mr : ModelRef) (mm : ModelMap M),
        buildSelect mr (Ids.plist []) mm = buildSelect mr Ids.pynone mm)
  ∧ Factory.binds (Ids.plist []) = BindsV.pydict []
  ∧ (∀ (d : QFactoryData) (anc : List (QFactoryData × JoinSpec)) (depth : Nat),
        compile_where d anc (Factory.binds (Ids.plist [])) depth = "1=1")
  ∧ Factory.binds (Ids.scalar 0) = BindsV.pydict [("id0", 0)]
  ∧ compile_where bicycleD [] (Factory.binds (Ids.scalar 0)) 0 = "bicycle.id IN (%(id0)s)" := by
  refine ⟨?_, rfl, ?_, rfl, rfl⟩
  · intro M mr mm
    cases h : List.lookup (refAsKey mr) mm <;> simp [buildSelect, Ids.falsy, h]
  · intro d anc depth
    cases anc <;> rfl

/-- C10 counterexample.  The claim: after `build` returns, the stored
normalized order has lost the reserved `__components__` key at every level.
A build whose root query returns zero rows (for a string-reference model it
still returns normally with no models) hits `_build`'s early `return` before
the `del`, so the stored order is exactly the canonical form, reserved key
included. -/
theorem C10_counterexample :
    buildOrder (fun _ => false) [] (standardize_order (POrder.plist ["tire"])) =
      standardize_order (POrder.plist ["tire"])
  ∧ hasCompsKey (standardize_order (POrder.plist ["tire"])) = true := by
  constructor
  · simp [standardize_order, buildOrder]
  · simp [standardize_order, hasCompsKey, entriesHaveComps]

/-- C10 amended.  `_build` deletes the reserved key in place from every
order node whose level query returned at least one row; a node whose query
returned no rows is left untouched together with its whole subtree.  In a
completed build in which every visited level returned rows, the stored order
no longer contains the reserved key at any level. -/
theorem C10_build_strips_components (x : POrder) (path : List String) :
    hasCompsKey (buildOrder (fun _ => true) path (standardize_order x)) = false :=
  buildOrder_clean x.osize x (le_refl _) path

end Pycyqle
